import Mathlib

/-!
Shallow embedding of the `financedet` stock-screening scripts
(`stock_analysis.py`, `model_trainer.py`) and proofs about them.

Price series are lists of rational closes; pandas column operations are
embedded as position-indexed functions, with `Option` for NaN produced by
insufficient rolling windows and a dedicated `PVal` type for the IEEE
special values (`NaN`, `±inf`) that the unguarded RSI division can produce.
-/

namespace Findet

/-- IEEE-style value of a pandas float cell: a genuine rational, `NaN`,
or a signed infinity (the values reachable by the scripts' divisions). -/
inductive PVal where
  | nan
  | posInf
  | negInf
  | val (q : ℚ)
deriving DecidableEq

/-- `Close.diff()` at position `t`: `close[t] - close[t-1]`, NaN (`none`)
at position 0 and outside the series. -/
def priceChange (closes : List ℚ) (t : ℕ) : Option ℚ :=
  if 0 < t ∧ t < closes.length then
    some (closes.getD t 0 - closes.getD (t - 1) 0)
  else none

/-- `delta.where(delta > 0, 0)` at position `t` (a NaN delta compares
false, so position 0 becomes 0, exactly as in pandas). -/
def gainAt (closes : List ℚ) (t : ℕ) : ℚ :=
  match priceChange closes t with
  | some d => if 0 < d then d else 0
  | none => 0

/-- `-delta.where(delta < 0, 0)` at position `t`. -/
def lossAt (closes : List ℚ) (t : ℕ) : ℚ :=
  match priceChange closes t with
  | some d => if d < 0 then -d else 0
  | none => 0

/-- `gain.rolling(window=14).mean()` at position `t`: NaN (`none`) until
13 full deltas plus the current one are available. -/
def avgGainAt (closes : List ℚ) (t : ℕ) : Option ℚ :=
  if 13 ≤ t ∧ t < closes.length then
    some (((List.range 14).map (fun j => gainAt closes (t - j))).sum / 14)
  else none

/-- `loss.rolling(window=14).mean()` at position `t`. -/
def avgLossAt (closes : List ℚ) (t : ℕ) : Option ℚ :=
  if 13 ≤ t ∧ t < closes.length then
    some (((List.range 14).map (fun j => lossAt closes (t - j))).sum / 14)
  else none

/-- `rs = gain / loss` with IEEE float division semantics: `0/0` is NaN,
`g/0` with `g ≠ 0` is a signed infinity, NaN operands propagate. -/
def rsDiv : Option ℚ → Option ℚ → PVal
  | some g, some l =>
      if l ≠ 0 then .val (g / l)
      else if 0 < g then .posInf
      else if g < 0 then .negInf
      else .nan
  | _, _ => .nan

/-- `RSI = 100 - (100 / (1 + rs))` with IEEE float semantics on the
special values of `rs`. -/
def rsiVal : PVal → PVal
  | .nan => .nan
  | .posInf => .val 100
  | .negInf => .val 100
  | .val q => if 1 + q = 0 then .negInf else .val (100 - 100 / (1 + q))

/-- The RSI column of `calculate_technical_indicators` at position `t`. -/
def rsiAt (closes : List ℚ) (t : ℕ) : PVal :=
  rsiVal (rsDiv (avgGainAt closes t) (avgLossAt closes t))

/-- A 30-bar constant-price series. -/
def constSeries : List ℚ := List.replicate 30 100

/-- A 30-bar strictly increasing price series. -/
def upSeries : List ℚ := List.map (fun i : ℕ => (i : ℚ)) (List.range 30)

lemma constSeries_getD (t : ℕ) (h : t < 30) : constSeries.getD t 0 = 100 := by
  simp only [constSeries, List.getD_eq_getElem?_getD,
    List.getElem?_replicate_of_lt h, Option.getD_some]

lemma upSeries_getD (t : ℕ) (h : t < 30) : upSeries.getD t 0 = (t : ℚ) := by
  simp only [upSeries, List.getD_eq_getElem?_getD, List.getElem?_map,
    List.getElem?_range h, Option.map_some', Option.getD_some]

lemma constSeries_length : constSeries.length = 30 := by
  rw [constSeries, List.length_replicate]

lemma upSeries_length : upSeries.length = 30 := by
  rw [upSeries, List.length_map, List.length_range]

lemma gainAt_constSeries (t : ℕ) : gainAt constSeries t = 0 := by
  unfold gainAt priceChange
  by_cases h : 0 < t ∧ t < constSeries.length
  · have h30 : constSeries.length = 30 := constSeries_length
    rw [if_pos h, constSeries_getD t (h30 ▸ h.2),
      constSeries_getD (t - 1) (by omega)]
    simp
  · rw [if_neg h]

lemma lossAt_constSeries (t : ℕ) : lossAt constSeries t = 0 := by
  unfold lossAt priceChange
  by_cases h : 0 < t ∧ t < constSeries.length
  · have h30 : constSeries.length = 30 := constSeries_length
    rw [if_pos h, constSeries_getD t (h30 ▸ h.2),
      constSeries_getD (t - 1) (by omega)]
    simp
  · rw [if_neg h]

lemma priceChange_upSeries (t : ℕ) (h1 : 1 ≤ t) (h2 : t < 30) :
    priceChange upSeries t = some 1 := by
  unfold priceChange
  have hl : upSeries.length = 30 := upSeries_length
  rw [if_pos (by omega : 0 < t ∧ t < upSeries.length),
    upSeries_getD t h2, upSeries_getD (t - 1) (by omega)]
  have : ((t : ℚ) - (t - 1 : ℕ)) = 1 := by
    have : ((t - 1 : ℕ) : ℚ) = (t : ℚ) - 1 := by
      push_cast [Nat.cast_sub h1]; ring
    rw [this]; ring
  rw [this]

lemma gainAt_upSeries (t : ℕ) (h1 : 1 ≤ t) (h2 : t < 30) :
    gainAt upSeries t = 1 := by
  unfold gainAt
  rw [priceChange_upSeries t h1 h2]
  norm_num

lemma lossAt_upSeries (t : ℕ) : lossAt upSeries t = 0 := by
  unfold lossAt
  by_cases h : 1 ≤ t ∧ t < 30
  · rw [priceChange_upSeries t h.1 h.2]; norm_num
  · have : priceChange upSeries t = none := by
      unfold priceChange
      have hl : upSeries.length = 30 := upSeries_length
      rw [if_neg (by omega)]
    rw [this]

lemma avgGainAt_constSeries : avgGainAt constSeries 14 = some 0 := by
  unfold avgGainAt
  have hl : constSeries.length = 30 := constSeries_length
  rw [if_pos (by omega : 13 ≤ 14 ∧ 14 < constSeries.length)]
  rw [List.map_congr_left (fun j _ => gainAt_constSeries (14 - j)),
    List.map_const', List.sum_replicate]
  norm_num

lemma avgLossAt_constSeries : avgLossAt constSeries 14 = some 0 := by
  unfold avgLossAt
  have hl : constSeries.length = 30 := constSeries_length
  rw [if_pos (by omega : 13 ≤ 14 ∧ 14 < constSeries.length)]
  rw [List.map_congr_left (fun j _ => lossAt_constSeries (14 - j)),
    List.map_const', List.sum_replicate]
  norm_num

lemma avgGainAt_upSeries : avgGainAt upSeries 14 = some 1 := by
  unfold avgGainAt
  have hl : upSeries.length = 30 := upSeries_length
  rw [if_pos (by omega : 13 ≤ 14 ∧ 14 < upSeries.length)]
  have : (List.range 14).map (fun j => gainAt upSeries (14 - j)) =
      (List.range 14).map (fun _ => (1 : ℚ)) := by
    refine List.map_congr_left (fun j hj => ?_)
    have hj14 : j < 14 := List.mem_range.mp hj
    exact gainAt_upSeries (14 - j) (by omega) (by omega)
  rw [this, List.map_const', List.sum_replicate]
  norm_num

lemma avgLossAt_upSeries : avgLossAt upSeries 14 = some 0 := by
  unfold avgLossAt
  have hl : upSeries.length = 30 := upSeries_length
  rw [if_pos (by omega : 13 ≤ 14 ∧ 14 < upSeries.length)]
  rw [List.map_congr_left (fun j _ => lossAt_upSeries (14 - j)),
    List.map_const', List.sum_replicate]
  norm_num

/-- One row of the fetched price frame: a calendar date (days as an
integer) and a closing price. -/
structure Row where
  date : ℤ
  close : ℚ
deriving DecidableEq

instance : Inhabited Row := ⟨⟨0, 0⟩⟩

/-- `df.sort_values(by='Date')`: a stable sort by date. -/
def sortByDate (rows : List Row) : List Row :=
  List.insertionSort (fun a b => a.date ≤ b.date) rows

/-- `df['Date'].drop_duplicates().count()`: the number of distinct
trading dates. -/
def tradingDays (rows : List Row) : ℕ :=
  (((sortByDate rows).map Row.date).dedup).length

/-- `df['Date'].max()` of the sorted frame (= the last date). -/
def maxDateOf (rows : List Row) : ℤ :=
  (((sortByDate rows).getLast?).map Row.date).getD 0

/-- Fuel-indexed recursion for `dedupByDate` (the fuel is an upper bound
on the list length, so it never runs out). -/
def dedupAux : ℕ → List Row → List Row
  | 0, _ => []
  | _, [] => []
  | fuel + 1, r :: rs => r :: dedupAux fuel (rs.filter (fun s => s.date ≠ r.date))

/-- `df.drop_duplicates(subset='Date')`: keep the first row of each date. -/
def dedupByDate (l : List Row) : List Row := dedupAux l.length l

/-- `df.tail(30)`. -/
def tail30 (l : List Row) : List Row := l.drop (l.length - 30)

/-- The ≤30-row working window of `calculate_technical_indicators`:
rows of the last 60 calendar days, deduplicated by date, last 30. -/
def windowRows (rows : List Row) : List Row :=
  tail30 (dedupByDate ((sortByDate rows).filter
    (fun r => maxDateOf rows - 60 ≤ r.date)))

/-- `Close.rolling(window=n).mean()` at position `i` (NaN before the
window is full). -/
def smaAt (n : ℕ) (closes : List ℚ) (i : ℕ) : Option ℚ :=
  if n ≤ i + 1 ∧ i < closes.length then
    some (((List.range n).map (fun j => closes.getD (i - j) 0)).sum / n)
  else none

/-- `Close.rolling(window=n).std()` squared: the rolling sample variance
(pandas default `ddof=1`) at position `i`. -/
def varAt (n : ℕ) (closes : List ℚ) (i : ℕ) : Option ℚ :=
  if n ≤ i + 1 ∧ i < closes.length then
    some (((List.range n).map (fun j =>
      (closes.getD (i - j) 0 -
        ((List.range n).map (fun k => closes.getD (i - k) 0)).sum / n) ^ 2)).sum
      / ((n : ℚ) - 1))
  else none

/-- `Close.rolling(window=n).std()` at position `i`. -/
noncomputable def stdAt (n : ℕ) (closes : List ℚ) (i : ℕ) : Option ℝ :=
  (varAt n closes i).map (fun v : ℚ => Real.sqrt (v : ℝ))

/-- `df['Upper Band'] = MA30 + Close.rolling(30).std() * 2`. -/
noncomputable def upperAt (closes : List ℚ) (i : ℕ) : Option ℝ :=
  match smaAt 30 closes i, stdAt 30 closes i with
  | some m, some s => some ((m : ℝ) + s * 2)
  | _, _ => none

/-- `df['Lower Band'] = MA30 - Close.rolling(30).std() * 2`. -/
noncomputable def lowerAt (closes : List ℚ) (i : ℕ) : Option ℝ :=
  match smaAt 30 closes i, stdAt 30 closes i with
  | some m, some s => some ((m : ℝ) - s * 2)
  | _, _ => none

/-- `ewm(span, adjust=False).mean()` of the series `f` at position `t`:
seeded with `f 0`, then `α·x + (1-α)·prev` with `α = 2/(span+1)`. -/
def emaF (span : ℕ) (f : ℕ → ℚ) : ℕ → ℚ
  | 0 => f 0
  | t + 1 =>
    (2 / ((span : ℚ) + 1)) * f (t + 1) +
      (1 - 2 / ((span : ℚ) + 1)) * emaF span f t

/-- `Close.ewm(span=n, adjust=False).mean()` at position `i`. -/
def emaAt (span : ℕ) (closes : List ℚ) (i : ℕ) : ℚ :=
  emaF span (fun t => closes.getD t 0) i

/-- `MACD = EMA12 - EMA26` at position `i`. -/
def macdAt (closes : List ℚ) (i : ℕ) : ℚ :=
  emaAt 12 closes i - emaAt 26 closes i

/-- `Signal Line = MACD.ewm(span=9, adjust=False).mean()` at position `i`. -/
def signalAt (closes : List ℚ) (i : ℕ) : ℚ :=
  emaF 9 (macdAt closes) i

/-- One row of the indicator frame produced for a sufficient history:
the original bar plus every indicator column the script adds. -/
structure IndRow where
  row : Row
  ma5 : Option ℚ
  ma20 : Option ℚ
  ma30 : Option ℚ
  rsi : PVal
  ema12 : ℚ
  ema26 : ℚ
  macd : ℚ
  signal : ℚ
  upper : Option ℝ
  lower : Option ℝ
  pchange : Option ℚ

instance : Inhabited IndRow :=
  ⟨⟨default, none, none, none, .nan, 0, 0, 0, 0, none, none, none⟩⟩

/-- The indicator columns computed over the working window. -/
noncomputable def mkFrame (win : List Row) : List IndRow :=
  let closes := win.map Row.close
  List.map (fun i =>
    { row := win.getD i default
      ma5 := smaAt 5 closes i
      ma20 := smaAt 20 closes i
      ma30 := smaAt 30 closes i
      rsi := rsiAt closes i
      ema12 := emaAt 12 closes i
      ema26 := emaAt 26 closes i
      macd := macdAt closes i
      signal := signalAt closes i
      upper := upperAt closes i
      lower := lowerAt closes i
      pchange := priceChange closes i }) (List.range win.length)

/-- Result of `calculate_technical_indicators`: for fewer than 30
distinct trading dates the sorted input frame is returned unchanged
(no indicator columns); otherwise the ≤30-row window with indicators. -/
inductive CalcResult where
  | insufficient (rows : List Row)
  | frame (rows : List IndRow)

/-- `calculate_technical_indicators` from `stock_analysis.py`. -/
noncomputable def calculate_technical_indicators (rows : List Row) : CalcResult :=
  if tradingDays rows < 30 then .insufficient (sortByDate rows)
  else .frame (mkFrame (windowRows rows))

/-- Number of rows of either kind of result. -/
def resultRowCount : CalcResult → ℕ
  | .insufficient rows => rows.length
  | .frame rows => rows.length

/-- A fetched price frame. -/
abbrev DF := List Row

/-- What the external provider does for one ticker: raise an exception,
return an empty/None payload, or return a frame. -/
inductive FetchResp where
  | raises (msg : String)
  | empty
  | data (df : DF)
deriving DecidableEq

/-- `fetch_stock_data`: returns `(code, df)` for a non-empty frame and
`(code, None)` for an empty or missing one; it has no try/except, so a
provider exception propagates to the caller. -/
def fetch_stock_data (code : String) (resp : FetchResp) :
    Except String (String × Option DF) :=
  match resp with
  | .raises m => .error m
  | .empty => .ok (code, none)
  | .data df => if df.isEmpty then .ok (code, none) else .ok (code, some df)

/-- The result-collection loop of `main`: for each completed future (in
completion order) read its result — re-raising a worker exception, which
aborts the loop — and store non-None frames keyed by ticker. -/
def runBatchAux (st : List (String × DF)) :
    List (String × FetchResp) → Except String (List (String × DF))
  | [] => .ok st
  | (c, r) :: rest =>
    match fetch_stock_data c r with
    | .error e => .error e
    | .ok (_, none) => runBatchAux st rest
    | .ok (code, some df) => runBatchAux (st ++ [(code, df)]) rest

/-- Fetch-and-merge over a whole universe, given each ticker's provider
response listed in completion order. -/
def runBatch (resps : List (String × FetchResp)) :
    Except String (List (String × DF)) :=
  runBatchAux [] resps

/-- A response that will be recorded in the store. -/
def isSuccess : FetchResp → Bool
  | .data df => !df.isEmpty
  | _ => false

/-- A response that does not raise. -/
def noRaise : FetchResp → Bool
  | .raises _ => false
  | _ => true

/-- The per-ticker entries a fully-completed batch stores. -/
def successes (resps : List (String × FetchResp)) : List (String × DF) :=
  resps.filterMap (fun p =>
    match p.2 with
    | .data df => if df.isEmpty then none else some (p.1, df)
    | _ => none)

/-- Dictionary lookup in the merged store. -/
def storeLookup : List (String × DF) → String → Option DF
  | [], _ => none
  | (k, v) :: rest, c => if k = c then some v else storeLookup rest c

lemma runBatchAux_ok (resps : List (String × FetchResp)) :
    ∀ st, (∀ p ∈ resps, noRaise p.2 = true) →
      runBatchAux st resps = .ok (st ++ successes resps) := by
  induction resps with
  | nil => intro st _; simp [runBatchAux, successes]
  | cons p rest ih =>
    intro st hok
    obtain ⟨c, r⟩ := p
    have hrest : ∀ q ∈ rest, noRaise q.2 = true :=
      fun q hq => hok q (List.mem_cons_of_mem _ hq)
    match r with
    | .raises m =>
      exact absurd (hok (c, .raises m) (List.mem_cons_self _ _)) (by simp [noRaise])
    | .empty =>
      show runBatchAux st ((c, .empty) :: rest) = _
      rw [show runBatchAux st ((c, FetchResp.empty) :: rest) =
        runBatchAux st rest from rfl, ih st hrest]
      simp [successes]
    | .data df =>
      by_cases hdf : df.isEmpty
      · have hdf' : df = [] := List.isEmpty_iff.mp hdf
        have h1 : runBatchAux st ((c, FetchResp.data df) :: rest) =
            runBatchAux st rest := by
          simp [runBatchAux, fetch_stock_data, hdf]
        have h2 : successes ((c, FetchResp.data df) :: rest) = successes rest := by
          simp [successes, List.filterMap_cons, hdf']
        rw [h1, ih st hrest, h2]
      · have hdf' : ¬ df = [] := fun h => hdf (by simp [h])
        have h1 : runBatchAux st ((c, FetchResp.data df) :: rest) =
            runBatchAux (st ++ [(c, df)]) rest := by
          simp [runBatchAux, fetch_stock_data, hdf]
        have h2 : successes ((c, FetchResp.data df) :: rest) =
            (c, df) :: successes rest := by
          simp [successes, List.filterMap_cons, hdf']
        rw [h1, ih (st ++ [(c, df)]) hrest, h2]
        simp

lemma runBatch_ok (resps : List (String × FetchResp))
    (hok : ∀ p ∈ resps, noRaise p.2 = true) :
    runBatch resps = .ok (successes resps) := by
  unfold runBatch
  rw [runBatchAux_ok resps [] hok]
  rfl

end Findet

namespace Findet

/-- Claim C1: evaluating the code's RSI at the failing input. On a
constant-price series the trailing 14-bar average gain and average loss
are both 0, and the computed RSI is NaN (the unguarded `gain / loss`
division yields `0/0`), not the 50 required by the spec's edge-case
policy; on a strictly rising series (average loss 0, average gain
positive) the division yields `+inf` and the RSI does equal 100, as the
spec states. -/
theorem rsi_zero_over_zero_is_nan :
    avgGainAt constSeries 14 = some 0 ∧
    avgLossAt constSeries 14 = some 0 ∧
    rsiAt constSeries 14 = PVal.nan ∧
    avgLossAt upSeries 14 = some 0 ∧
    avgGainAt upSeries 14 = some 1 ∧
    rsiAt upSeries 14 = PVal.val 100 := by
  refine ⟨avgGainAt_constSeries, avgLossAt_constSeries, ?_,
    avgLossAt_upSeries, avgGainAt_upSeries, ?_⟩
  · unfold rsiAt
    rw [avgGainAt_constSeries, avgLossAt_constSeries]
    simp [rsDiv, rsiVal]
  · unfold rsiAt
    rw [avgGainAt_upSeries, avgLossAt_upSeries]
    simp [rsDiv, rsiVal]

/-- Claim C8: at every position, `Upper Band − Lower Band` equals
`4 × Close.rolling(30).std()` (both bands use the same `MA30` and the
same sample standard deviation); where the band is NaN so is the width. -/
theorem bollinger_band_width (closes : List ℚ) (i : ℕ) :
    Option.map₂ (fun u l => u - l) (upperAt closes i) (lowerAt closes i) =
      (stdAt 30 closes i).map (fun s => 4 * s) := by
  by_cases h : 30 ≤ i + 1 ∧ i < closes.length
  · simp only [upperAt, lowerAt, stdAt, smaAt, varAt, if_pos h, Option.map_some',
      Option.map₂_some_some, Option.some.injEq]
    ring
  · simp only [upperAt, lowerAt, stdAt, smaAt, varAt, if_neg h, Option.map_none']
    rfl

instance rowDateLETotal : IsTotal Row (fun a b => a.date ≤ b.date) :=
  ⟨fun a b => le_total a.date b.date⟩

instance rowDateLETrans : IsTrans Row (fun a b => a.date ≤ b.date) :=
  ⟨fun _ _ _ h1 h2 => le_trans h1 h2⟩

/-- Claim C9: with fewer than 30 distinct trading dates,
`calculate_technical_indicators` returns the input frame itself with no
indicator columns added, only re-sorted by date (the output is a
permutation of the input, sorted by date). -/
theorem insufficient_history_returns_input (rows : List Row)
    (h : tradingDays rows < 30) :
    calculate_technical_indicators rows = .insufficient (sortByDate rows) ∧
    (sortByDate rows).Perm rows ∧
    List.Sorted (fun a b => a.date ≤ b.date) (sortByDate rows) := by
  refine ⟨?_, List.perm_insertionSort _ rows, List.sorted_insertionSort _ rows⟩
  unfold calculate_technical_indicators
  rw [if_pos h]

/-- A two-bar frame, out of date order. -/
def demoShort : List Row := [⟨1, 5⟩, ⟨0, 3⟩]

/-- Witness for C9 at a concrete two-bar frame. -/
theorem insufficient_history_returns_input_witness :
    calculate_technical_indicators demoShort = .insufficient (sortByDate demoShort) ∧
    (sortByDate demoShort).Perm demoShort ∧
    List.Sorted (fun a b => a.date ≤ b.date) (sortByDate demoShort) :=
  insufficient_history_returns_input demoShort (by decide)

lemma sortByDate_eq_self (rows : List Row)
    (hinc : rows.Pairwise (fun a b => a.date < b.date)) :
    sortByDate rows = rows :=
  List.Sorted.insertionSort_eq (hinc.imp (fun h => le_of_lt h))

lemma nodupDates_of_inc (rows : List Row)
    (hinc : rows.Pairwise (fun a b => a.date < b.date)) :
    (rows.map Row.date).Nodup :=
  (List.pairwise_map).mpr (hinc.imp (fun h => ne_of_lt h))

lemma dedupAux_eq_self :
    ∀ (fuel : ℕ) (l : List Row), l.length ≤ fuel →
      (l.map Row.date).Nodup → dedupAux fuel l = l := by
  intro fuel
  induction fuel with
  | zero =>
    intro l hl _
    have : l = [] := List.eq_nil_of_length_eq_zero (Nat.le_zero.mp hl)
    subst this
    rfl
  | succ fuel ih =>
    intro l hl hnd
    match l with
    | [] => rfl
    | r :: rs =>
      have hcons : (∀ x ∈ rs, ¬ x.date = r.date) ∧ (rs.map Row.date).Nodup := by
        simpa using hnd
      have hfil : rs.filter (fun s => s.date ≠ r.date) = rs := by
        refine List.filter_eq_self.mpr (fun s hs => ?_)
        simp only [ne_eq, decide_not, Bool.not_eq_true', decide_eq_false_iff_not]
        exact fun heq => hcons.1 s hs heq
      have hlen : rs.length ≤ fuel := by
        simp only [List.length_cons] at hl
        omega
      show r :: dedupAux fuel (rs.filter (fun s => s.date ≠ r.date)) = r :: rs
      rw [hfil, ih rs hlen hcons.2]

lemma dedupByDate_eq_self (l : List Row) (h : (l.map Row.date).Nodup) :
    dedupByDate l = l :=
  dedupAux_eq_self l.length l le_rfl h

lemma mkFrame_length (win : List Row) : (mkFrame win).length = win.length := by
  simp [mkFrame]

lemma mkFrame_getD (win : List Row) (i : ℕ) (h : i < win.length) :
    (mkFrame win).getD i default =
      { row := win.getD i default
        ma5 := smaAt 5 (win.map Row.close) i
        ma20 := smaAt 20 (win.map Row.close) i
        ma30 := smaAt 30 (win.map Row.close) i
        rsi := rsiAt (win.map Row.close) i
        ema12 := emaAt 12 (win.map Row.close) i
        ema26 := emaAt 26 (win.map Row.close) i
        macd := macdAt (win.map Row.close) i
        signal := signalAt (win.map Row.close) i
        upper := upperAt (win.map Row.close) i
        lower := lowerAt (win.map Row.close) i
        pchange := priceChange (win.map Row.close) i } := by
  simp only [mkFrame]
  rw [List.getD_eq_getElem?_getD, List.getElem?_map, List.getElem?_range h,
    Option.map_some', Option.getD_some]

/-- Claim C5, amended: with at least 30 strictly-increasing trading
dates, the output is not aligned 1:1 with the input; it is the
`.frame` of the most recent (at most 30) bars from the last 60 calendar
days, one output row per retained bar, and positions before an
indicator's minimum lookback are marked undefined (`none`) rather than
dropped: MA5 is defined exactly from position 4 on, MA30 and the
Bollinger upper band exactly from position 29 on. -/
theorem indicator_window_shape (rows : List Row)
    (hinc : rows.Pairwise (fun a b => a.date < b.date))
    (hlen : 30 ≤ rows.length) :
    ∃ F, calculate_technical_indicators rows = .frame F ∧
      F.length =
        min 30 ((rows.filter (fun r => maxDateOf rows - 60 ≤ r.date)).length) ∧
      (∀ i, i < F.length →
        ((F.getD i default).row ∈ rows ∧
         ((F.getD i default).ma5.isSome ↔ 4 ≤ i) ∧
         ((F.getD i default).ma30.isSome ↔ 29 ≤ i) ∧
         ((F.getD i default).upper.isSome ↔ 29 ≤ i))) := by
  have hsort := sortByDate_eq_self rows hinc
  have hnd := nodupDates_of_inc rows hinc
  have htd : tradingDays rows = rows.length := by
    unfold tradingDays
    rw [hsort, List.dedup_eq_self.mpr hnd, List.length_map]
  have hbranch : ¬ tradingDays rows < 30 := by omega
  have hfsub : (rows.filter (fun r => maxDateOf rows - 60 ≤ r.date)).Sublist rows :=
    List.filter_sublist rows
  have hndf : ((rows.filter (fun r => maxDateOf rows - 60 ≤ r.date)).map
      Row.date).Nodup :=
    List.Nodup.sublist (List.Sublist.map Row.date hfsub) hnd
  have hwin : windowRows rows =
      tail30 (rows.filter (fun r => maxDateOf rows - 60 ≤ r.date)) := by
    unfold windowRows
    rw [hsort, dedupByDate_eq_self _ hndf]
  have hwsub : (windowRows rows).Sublist rows := by
    rw [hwin]
    exact List.Sublist.trans (List.drop_sublist _ _) hfsub
  refine ⟨mkFrame (windowRows rows), ?_, ?_, ?_⟩
  · unfold calculate_technical_indicators
    rw [if_neg hbranch]
  · rw [mkFrame_length, hwin]
    unfold tail30
    rw [List.length_drop]
    omega
  · intro i hi
    rw [mkFrame_length] at hi
    rw [mkFrame_getD _ i hi]
    have hclen : ((windowRows rows).map Row.close).length =
        (windowRows rows).length := List.length_map _ _
    have hilen : i < ((windowRows rows).map Row.close).length := by
      rw [hclen]; exact hi
    refine ⟨?_, ?_, ?_, ?_⟩
    · show (windowRows rows).getD i default ∈ rows
      rw [List.getD_eq_getElem _ _ hi]
      exact hwsub.mem (List.getElem_mem hi)
    · show (smaAt 5 ((windowRows rows).map Row.close) i).isSome ↔ 4 ≤ i
      unfold smaAt
      by_cases h5 : 5 ≤ i + 1 ∧ i < ((windowRows rows).map Row.close).length
      · simp only [if_pos h5, Option.isSome_some]
        exact iff_of_true trivial (by omega)
      · simp only [if_neg h5, Option.isSome_none]
        exact iff_of_false (by simp) (fun h4 => h5 ⟨by omega, hilen⟩)
    · show (smaAt 30 ((windowRows rows).map Row.close) i).isSome ↔ 29 ≤ i
      unfold smaAt
      by_cases h30 : 30 ≤ i + 1 ∧ i < ((windowRows rows).map Row.close).length
      · simp only [if_pos h30, Option.isSome_some]
        exact iff_of_true trivial (by omega)
      · simp only [if_neg h30, Option.isSome_none]
        exact iff_of_false (by simp) (fun h29 => h30 ⟨by omega, hilen⟩)
    · show (upperAt ((windowRows rows).map Row.close) i).isSome ↔ 29 ≤ i
      unfold upperAt stdAt smaAt varAt
      by_cases h30 : 30 ≤ i + 1 ∧ i < ((windowRows rows).map Row.close).length
      · simp only [if_pos h30, Option.map_some', Option.isSome_some]
        exact iff_of_true trivial (by omega)
      · simp only [if_neg h30, Option.map_none']
        exact iff_of_false (by simp) (fun h29 => h30 ⟨by omega, hilen⟩)

/-- A 31-bar frame with distinct consecutive dates. -/
def demo31 : List Row := List.map (fun i : ℕ => ⟨(i : ℤ), 1⟩) (List.range 31)

/-- Witness for the amended C5 at a concrete 31-bar frame. -/
theorem indicator_window_shape_witness :
    ∃ F, calculate_technical_indicators demo31 = .frame F ∧
      F.length =
        min 30 ((demo31.filter (fun r => maxDateOf demo31 - 60 ≤ r.date)).length) ∧
      (∀ i, i < F.length →
        ((F.getD i default).row ∈ demo31 ∧
         ((F.getD i default).ma5.isSome ↔ 4 ≤ i) ∧
         ((F.getD i default).ma30.isSome ↔ 29 ≤ i) ∧
         ((F.getD i default).upper.isSome ↔ 29 ≤ i))) :=
  indicator_window_shape demo31 (by decide) (by decide)

/-- Counterexample to claim C5: a 31-bar input produces a 30-row output,
so the indicator frame is not aligned 1:1 with the input series. -/
theorem frame_not_aligned_counterexample :
    demo31.length = 31 ∧
    resultRowCount (calculate_technical_indicators demo31) = 30 := by
  constructor
  · rfl
  · rfl

/-- Counterexample to claim C2: one ticker's fetch raising an exception
makes the whole result-collection loop fail, so the sibling ticker's
successful frame never reaches the merged store. -/
theorem fetch_failure_aborts_counterexample :
    runBatch [("A", FetchResp.raises "neterr"),
      ("B", FetchResp.data [⟨0, 2⟩])] = .error "neterr" := rfl

/-- Claim C2, amended: an empty or missing payload is recorded as a
per-ticker failure and skipped without aborting the batch, and every
sibling ticker with a non-empty frame still reaches the merged store —
but only as long as no fetch raises; a raised exception (network error,
malformed schema) propagates out of `future.result()` and aborts the
collection loop. -/
theorem fetch_empty_payload_isolated (resps : List (String × FetchResp))
    (hok : ∀ p ∈ resps, noRaise p.2 = true) :
    runBatch resps = .ok (successes resps) ∧
    ∀ c df, (c, FetchResp.data df) ∈ resps → df.isEmpty = false →
      (c, df) ∈ successes resps := by
  refine ⟨runBatch_ok resps hok, fun c df hmem hdf => ?_⟩
  refine List.mem_filterMap.mpr ⟨(c, FetchResp.data df), hmem, ?_⟩
  simp [hdf]

/-- A mixed batch: two successful tickers and one empty payload. -/
def demoBatch : List (String × FetchResp) :=
  [("A", FetchResp.data [⟨0, 1⟩]), ("B", FetchResp.empty),
   ("C", FetchResp.data [⟨0, 2⟩])]

/-- The same batch in a different completion order. -/
def demoBatchPerm : List (String × FetchResp) :=
  [("C", FetchResp.data [⟨0, 2⟩]), ("A", FetchResp.data [⟨0, 1⟩]),
   ("B", FetchResp.empty)]

/-- Witness for the amended C2 on a concrete batch. -/
theorem fetch_empty_payload_isolated_witness :
    runBatch demoBatch = .ok (successes demoBatch) ∧
    ("C", ([⟨0, 2⟩] : DF)) ∈ successes demoBatch :=
  ⟨(fetch_empty_payload_isolated demoBatch (by decide)).1,
   (fetch_empty_payload_isolated demoBatch (by decide)).2 "C" [⟨0, 2⟩]
     (by decide) (by decide)⟩

lemma successes_cons_skip (c : String) (r : FetchResp) (rest : List (String × FetchResp))
    (h : isSuccess r = false) :
    successes ((c, r) :: rest) = successes rest := by
  cases r with
  | raises m => rfl
  | empty => rfl
  | data df =>
    have hdf : df = [] := by
      simpa [isSuccess] using h
    simp [successes, List.filterMap_cons, hdf]

lemma successes_cons_keep (c : String) (df : DF) (rest : List (String × FetchResp))
    (h : ¬ df.isEmpty) :
    successes ((c, FetchResp.data df) :: rest) = (c, df) :: successes rest := by
  have hdf : ¬ df = [] := fun he => h (by simp [he])
  simp [successes, List.filterMap_cons, hdf]

lemma successes_keys_sublist (l : List (String × FetchResp)) :
    ((successes l).map Prod.fst).Sublist (l.map Prod.fst) := by
  induction l with
  | nil => simp [successes]
  | cons p rest ih =>
    obtain ⟨c, r⟩ := p
    by_cases hs : isSuccess r
    · match r, hs with
      | .data df, hs =>
        have hdf : ¬ df.isEmpty := by
          simpa [isSuccess] using hs
        rw [successes_cons_keep c df rest hdf, List.map_cons, List.map_cons]
        exact List.Sublist.cons₂ _ ih
    · rw [successes_cons_skip c r rest (by simpa using hs), List.map_cons]
      exact List.Sublist.cons _ ih

lemma length_successes (l : List (String × FetchResp)) :
    (successes l).length = l.countP (fun p => isSuccess p.2) := by
  induction l with
  | nil => simp [successes]
  | cons p rest ih =>
    obtain ⟨c, r⟩ := p
    rw [List.countP_cons]
    by_cases hs : isSuccess r
    · match r, hs with
      | .data df, hs =>
        have hdf : ¬ df.isEmpty := by
          simpa [isSuccess] using hs
        rw [successes_cons_keep c df rest hdf, List.length_cons, ih]
        simp [isSuccess, hdf]
    · rw [successes_cons_skip c r rest (by simpa using hs), ih]
      have hs' : isSuccess r = false := by
        simpa using hs
      simp [hs']

lemma countP_split (l : List (String × FetchResp)) :
    l.length = l.countP (fun p => isSuccess p.2) +
      l.countP (fun p => !(isSuccess p.2)) := by
  induction l with
  | nil => simp
  | cons p rest ih =>
    rw [List.length_cons, List.countP_cons, List.countP_cons]
    cases h : isSuccess p.2 <;> simp [h] <;> omega

lemma storeLookup_none_iff (l : List (String × DF)) (c : String) :
    storeLookup l c = none ↔ c ∉ l.map Prod.fst := by
  induction l with
  | nil => simp [storeLookup]
  | cons p rest ih =>
    obtain ⟨k, w⟩ := p
    by_cases hk : k = c
    · subst hk
      simp [storeLookup]
    · simp [storeLookup, hk, ih, Ne.symm hk]

lemma storeLookup_some_iff (l : List (String × DF))
    (hnd : (l.map Prod.fst).Nodup) (c : String) (v : DF) :
    storeLookup l c = some v ↔ (c, v) ∈ l := by
  induction l with
  | nil => simp [storeLookup]
  | cons p rest ih =>
    obtain ⟨k, w⟩ := p
    have hcons : (∀ x : DF, (k, x) ∉ rest) ∧ (rest.map Prod.fst).Nodup := by
      simpa using hnd
    by_cases hk : k = c
    · subst hk
      constructor
      · intro hv
        have hv' : w = v := by
          simpa [storeLookup] using hv
        subst hv'
        exact List.mem_cons_self _ _
      · intro h
        rcases List.mem_cons.mp h with h1 | h2
        · have hvw : v = w := congrArg Prod.snd h1
          rw [show storeLookup ((k, w) :: rest) k = some w from by
            simp [storeLookup], hvw]
        · exact absurd h2 (hcons.1 v)
    · constructor
      · intro hv
        have hv' : storeLookup rest c = some v := by
          simpa [storeLookup, hk] using hv
        exact List.mem_cons_of_mem _ ((ih hcons.2).mp hv')
      · intro h
        rcases List.mem_cons.mp h with h1 | h2
        · exact absurd (congrArg Prod.fst h1).symm hk
        · have hrest := (ih hcons.2).mpr h2
          simpa [storeLookup, hk] using hrest

lemma storeLookup_perm_eq (l l' : List (String × DF)) (hp : l.Perm l')
    (hnd : (l.map Prod.fst).Nodup) (c : String) :
    storeLookup l c = storeLookup l' c := by
  have hnd' : (l'.map Prod.fst).Nodup := ((hp.map Prod.fst).nodup_iff).mp hnd
  cases h1 : storeLookup l c with
  | none =>
    have hcl : c ∉ l'.map Prod.fst := by
      intro hc
      exact ((storeLookup_none_iff l c).mp h1) ((hp.map Prod.fst).mem_iff.mpr hc)
    exact ((storeLookup_none_iff l' c).mpr hcl).symm
  | some v =>
    have hmem : (c, v) ∈ l' := hp.mem_iff.mp ((storeLookup_some_iff l hnd c v).mp h1)
    exact ((storeLookup_some_iff l' hnd' c v).mpr hmem).symm

/-- Claim C3: for a universe of distinct tickers where the failing
fetches are the recorded kind (empty/None payloads, not exceptions),
the merged store holds exactly the N−M successful entries and its
keyed content is the same under any permutation of completion order. -/
theorem merged_store_order_invariant (resps resps' : List (String × FetchResp))
    (hkeys : (resps.map Prod.fst).Nodup)
    (hok : ∀ p ∈ resps, noRaise p.2 = true)
    (hperm : resps.Perm resps') :
    ∃ st st', runBatch resps = .ok st ∧ runBatch resps' = .ok st' ∧
      st.length = resps.length - resps.countP (fun p => !(isSuccess p.2)) ∧
      ∀ c, storeLookup st c = storeLookup st' c := by
  have hok' : ∀ p ∈ resps', noRaise p.2 = true :=
    fun p hp => hok p (hperm.mem_iff.mpr hp)
  refine ⟨successes resps, successes resps',
    runBatch_ok resps hok, runBatch_ok resps' hok', ?_, ?_⟩
  · rw [length_successes]
    have := countP_split resps
    omega
  · have hndS : ((successes resps).map Prod.fst).Nodup :=
      List.Nodup.sublist (successes_keys_sublist resps) hkeys
    exact storeLookup_perm_eq _ _ (hperm.filterMap _) hndS

/-- Witness for C3: a three-ticker batch with one empty-payload failure,
and a reordering of its completion. -/
theorem merged_store_order_invariant_witness :
    ∃ st st', runBatch demoBatch = .ok st ∧ runBatch demoBatchPerm = .ok st' ∧
      st.length = demoBatch.length -
        demoBatch.countP (fun p => !(isSuccess p.2)) ∧
      ∀ c, storeLookup st c = storeLookup st' c :=
  merged_store_order_invariant demoBatch demoBatchPerm
    (by decide) (by decide) (by decide)

/-- `df['Target'] = np.where(df['Price Change'] > 0, 1, 0)`: the training
label at position `t` (a NaN price change compares false, giving 0). -/
def targetAt (closes : List ℚ) (t : ℕ) : ℕ :=
  match priceChange closes t with
  | some d => if 0 < d then 1 else 0
  | none => 0

/-- Follows the spec's words, for comparison with `targetAt`: label 1
iff the NEXT bar's close exceeds the current bar's close. -/
def specNextBarLabel (closes : List ℚ) (t : ℕ) : Option ℕ :=
  if t + 1 < closes.length then
    some (if closes.getD t 0 < closes.getD (t + 1) 0 then 1 else 0)
  else none

/-- `Series.max()` over a window column. -/
def listMax (l : List ℚ) : ℚ :=
  match l with
  | [] => 0
  | x :: xs => xs.foldl max x

/-- `Series.min()` over a window column. -/
def listMin (l : List ℚ) : ℚ :=
  match l with
  | [] => 0
  | x :: xs => xs.foldl min x

/-- `model_trainer.prepare_data`'s per-ticker label:
`1 if high_price > low_price * 1.29 else 0` over the 11-bar window. -/
def mtTarget (highs lows : List ℚ) : ℕ :=
  if listMin lows * (129 / 100) < listMax highs then 1 else 0

/-- Counterexample to claim C4: on closes `[100, 101, 101]` at bar 1 the
code labels 1 (the close just rose from the previous bar), while the
next-bar rule labels 0 (bar 2 does not exceed bar 1) and any
"rose ≥ 29% within the window" rule also labels 0 (the series never
rises more than 1%). -/
theorem label_rule_counterexample :
    targetAt [100, 101, 101] 1 = 1 ∧
    specNextBarLabel [100, 101, 101] 1 = some 0 ∧
    mtTarget [100, 101, 101] [100, 101, 101] = 0 := by
  refine ⟨?_, ?_, ?_⟩
  · simp only [targetAt, priceChange]
    norm_num
  · simp only [specNextBarLabel]
    norm_num
  · simp only [mtTarget, listMin, listMax, List.foldl]
    norm_num

/-- Claim C4, amended: in `stock_analysis.preprocess_data` the label at
bar `t` is 1 exactly when the CURRENT bar's close exceeds the PREVIOUS
bar's close — equivalently, the code's label at bar `t` equals the
spec's next-bar label evaluated one bar earlier, at `t − 1` — with bar 0
labelled 0; `model_trainer.prepare_data` instead assigns one label per
ticker, 1 exactly when the window's highest High exceeds 1.29 × its
lowest Low. -/
theorem label_is_prev_bar_increase (closes : List ℚ) (t : ℕ)
    (h0 : 0 < t) (hlen : t < closes.length) :
    targetAt closes t = (specNextBarLabel closes (t - 1)).getD 0 ∧
    targetAt closes 0 = 0 ∧
    (∀ highs lows : List ℚ, (mtTarget highs lows = 1 ↔
      listMin lows * (129 / 100) < listMax highs)) := by
  refine ⟨?_, ?_, ?_⟩
  · unfold targetAt priceChange specNextBarLabel
    have ht : t - 1 + 1 = t := by omega
    rw [if_pos ⟨h0, hlen⟩, if_pos (by omega : t - 1 + 1 < closes.length), ht]
    simp [sub_pos]
  · simp [targetAt, priceChange]
  · intro highs lows
    by_cases hc : listMin lows * (129 / 100) < listMax highs <;>
      simp [mtTarget, hc]

/-- Witness for the amended C4 at closes `[100, 101, 101]`, bar 1. -/
theorem label_is_prev_bar_increase_witness :
    targetAt [100, 101, 101] 1 =
      (specNextBarLabel [100, 101, 101] (1 - 1)).getD 0 ∧
    targetAt [100, 101, 101] 0 = 0 ∧
    (∀ highs lows : List ℚ, (mtTarget highs lows = 1 ↔
      listMin lows * (129 / 100) < listMax highs)) :=
  label_is_prev_bar_increase [100, 101, 101] 1 (by norm_num) (by norm_num)

/-- Python's `sorted(key=lambda x: x[1], reverse=True)` comparison:
`a` precedes `b` when `b`'s price does not exceed `a`'s. -/
def descByClose (a b : String × ℚ) : Prop := b.2 ≤ a.2

instance : DecidableRel descByClose :=
  fun a b => inferInstanceAs (Decidable (b.2 ≤ a.2))

instance : IsTotal (String × ℚ) descByClose :=
  ⟨fun a b => le_total b.2 a.2⟩

instance : IsTrans (String × ℚ) descByClose :=
  ⟨fun _ _ _ h1 h2 => le_trans h2 h1⟩

/-- `sorted(potential_stocks, key=lambda x: x[1], reverse=True)`: a
stable sort, descending by last close. -/
def pySortDesc (l : List (String × ℚ)) : List (String × ℚ) :=
  List.insertionSort descByClose l

/-- `sorted(...)[:20]`: the ranked candidates, truncated to 20. -/
def topStocks (l : List (String × ℚ)) : List (String × ℚ) :=
  (pySortDesc l).take 20

/-- Follows the spec's words, for comparison: descending by last close
with ties broken by ticker identifier ascending (lexicographic on the
ticker's character sequence). -/
def specRankRel (a b : String × ℚ) : Prop :=
  b.2 < a.2 ∨ (a.2 = b.2 ∧ a.1.data ≤ b.1.data)

instance : DecidableRel specRankRel :=
  fun a b =>
    inferInstanceAs (Decidable (b.2 < a.2 ∨ (a.2 = b.2 ∧ a.1.data ≤ b.1.data)))

/-- The spec's ranking, truncated to 20. -/
def specTopStocks (l : List (String × ℚ)) : List (String × ℚ) :=
  (List.insertionSort specRankRel l).take 20

/-- Counterexample to claim C6: two tickers tied on last close stay in
their original (completion) order under the code's stable sort, whereas
the spec's tie-break by ticker ascending would swap them. -/
theorem ranking_tie_counterexample :
    topStocks [("B", 10), ("A", 10)] = [("B", 10), ("A", 10)] ∧
    specTopStocks [("B", 10), ("A", 10)] = [("A", 10), ("B", 10)] ∧
    topStocks [("B", 10), ("A", 10)] ≠
      specTopStocks [("B", 10), ("A", 10)] := by
  have hpy : topStocks [("B", 10), ("A", 10)] = [("B", 10), ("A", 10)] := by
    simp only [topStocks, pySortDesc, List.insertionSort, List.orderedInsert]
    norm_num [descByClose]
  have hspec : specTopStocks [("B", 10), ("A", 10)] = [("A", 10), ("B", 10)] := by
    simp only [specTopStocks, List.insertionSort, List.orderedInsert]
    rw [if_neg (by decide : ¬ specRankRel ("B", 10) ("A", 10))]
    rfl
  refine ⟨hpy, hspec, ?_⟩
  rw [hpy, hspec]
  decide

lemma filter_orderedInsert (a : String × ℚ) (s : List (String × ℚ)) (q : ℚ) :
    (List.orderedInsert descByClose a s).filter (fun x => x.2 = q) =
      if a.2 = q then a :: s.filter (fun x => x.2 = q)
      else s.filter (fun x => x.2 = q) := by
  induction s with
  | nil => by_cases h : a.2 = q <;> simp [List.orderedInsert, h]
  | cons y ys ih =>
    by_cases hr : descByClose a y
    · simp only [List.orderedInsert, if_pos hr]
      by_cases h : a.2 = q <;> simp [List.filter_cons, h]
    · simp only [List.orderedInsert, if_neg hr]
      have hy : a.2 < y.2 := not_le.mp hr
      by_cases h : a.2 = q
      · have hyq : ¬ (y.2 = q) := fun he => absurd (h ▸ he ▸ hy) (lt_irrefl _)
        by_cases hy2 : y.2 = q
        · exact absurd hy2 hyq
        · simp [List.filter_cons, hy2, ih, h]
      · by_cases hy2 : y.2 = q <;> simp [List.filter_cons, hy2, ih, h]

/-- A feature vector. -/
abbrev Feat := List ℚ

/-- `np.unique(y)`: the distinct labels of the training samples. -/
def classesOf (s : List (Feat × ℕ)) : List ℕ := (s.map Prod.snd).dedup

/-- The number of samples of class `c` (one component of `np.bincount`). -/
def classCount (s : List (Feat × ℕ)) (c : ℕ) : ℕ :=
  s.countP (fun p => p.2 = c)

/-- The majority-class count. -/
def maxClassCount (s : List (Feat × ℕ)) : ℕ :=
  ((classesOf s).map (classCount s)).foldl max 0

/-- The synthetic samples added for class `c`: repeats of that class's
own samples until its count reaches the majority count. -/
def fillBlock (s : List (Feat × ℕ)) (c : ℕ) : List (Feat × ℕ) :=
  (List.range (maxClassCount s - classCount s c)).map
    (fun i => (s.filter (fun p => p.2 = c)).getD
      (i % (s.filter (fun p => p.2 = c)).length) ([], c))

/-- Modelled from the spec: the external `imblearn` `SMOTE(random_state=42)`
oversampler, which `prepare_data` calls but whose code is not in this
repository; per the spec it applies "minority-class oversampling to
balance classes", topping every class up to the majority count. -/
def oversample (s : List (Feat × ℕ)) : List (Feat × ℕ) :=
  s ++ (classesOf s).flatMap (fillBlock s)

/-- The balancing step of `model_trainer.prepare_data`: oversample only
when more than one class is present, else keep the data and warn (the
second component is the warning flag). -/
def prepare_balance (s : List (Feat × ℕ)) : List (Feat × ℕ) × Bool :=
  if 1 < (classesOf s).length then (oversample s, false) else (s, true)

lemma foldl_max_init (l : List ℕ) (b : ℕ) : b ≤ l.foldl max b := by
  induction l generalizing b with
  | nil => exact le_rfl
  | cons x xs ih => exact le_trans (le_max_left b x) (ih (max b x))

lemma mem_le_foldl_max (l : List ℕ) (b a : ℕ) (ha : a ∈ l) :
    a ≤ l.foldl max b := by
  induction l generalizing b with
  | nil => cases ha
  | cons x xs ih =>
    rcases List.mem_cons.mp ha with h1 | h2
    · subst h1
      exact le_trans (le_max_right b a) (foldl_max_init xs (max b a))
    · exact ih (max b x) h2

lemma classCount_le_max (s : List (Feat × ℕ)) (c : ℕ)
    (hc : c ∈ classesOf s) : classCount s c ≤ maxClassCount s :=
  mem_le_foldl_max _ 0 _ (List.mem_map_of_mem (classCount s) hc)

lemma fillBlock_label (s : List (Feat × ℕ)) (c : ℕ) :
    ∀ p ∈ fillBlock s c, p.2 = c := by
  intro p hp
  obtain ⟨i, _, hpi⟩ := List.mem_map.mp hp
  by_cases hlen : (s.filter (fun p => p.2 = c)).length = 0
  · rw [List.getD_eq_default _ _ (by omega)] at hpi
    rw [← hpi]
  · have hlt : i % (s.filter (fun p => p.2 = c)).length <
        (s.filter (fun p => p.2 = c)).length :=
      Nat.mod_lt _ (Nat.pos_of_ne_zero hlen)
    rw [List.getD_eq_getElem _ _ hlt] at hpi
    have hmem := List.getElem_mem hlt
    rw [hpi] at hmem
    exact of_decide_eq_true (List.mem_filter.mp hmem).2

lemma fillBlock_length (s : List (Feat × ℕ)) (c : ℕ) :
    (fillBlock s c).length = maxClassCount s - classCount s c := by
  simp [fillBlock]

lemma countP_fillBlock (s : List (Feat × ℕ)) (c c' : ℕ) :
    (fillBlock s c').countP (fun p => p.2 = c) =
      if c' = c then maxClassCount s - classCount s c else 0 := by
  by_cases h : c' = c
  · subst h
    rw [if_pos rfl, ← fillBlock_length s c']
    exact List.countP_eq_length.mpr
      (fun p hp => decide_eq_true (fillBlock_label s c' p hp))
  · rw [if_neg h]
    refine List.countP_eq_zero.mpr (fun p hp => ?_)
    simp only [decide_eq_true_eq]
    rw [fillBlock_label s c' p hp]
    exact h

lemma countP_flatMap_not_mem (s : List (Feat × ℕ)) (cs : List ℕ) (c : ℕ)
    (hc : c ∉ cs) :
    (cs.flatMap (fillBlock s)).countP (fun p => p.2 = c) = 0 := by
  induction cs with
  | nil => rfl
  | cons c'' cs' ih =>
    rw [List.flatMap_cons, List.countP_append, countP_fillBlock,
      if_neg (fun he => hc (by rw [← he]; exact List.mem_cons_self _ _)),
      ih (fun h => hc (List.mem_cons_of_mem _ h))]

lemma countP_flatMap_mem (s : List (Feat × ℕ)) (cs : List ℕ) (c : ℕ)
    (hnd : cs.Nodup) (hc : c ∈ cs) :
    (cs.flatMap (fillBlock s)).countP (fun p => p.2 = c) =
      maxClassCount s - classCount s c := by
  induction cs with
  | nil => cases hc
  | cons c'' cs' ih =>
    have hcons := List.nodup_cons.mp hnd
    rw [List.flatMap_cons, List.countP_append, countP_fillBlock]
    rcases List.mem_cons.mp hc with h1 | h2
    · subst h1
      rw [if_pos rfl, countP_flatMap_not_mem s cs' c hcons.1]
      omega
    · have hne : c'' ≠ c := fun he => hcons.1 (he ▸ h2)
      rw [if_neg hne, ih hcons.2 h2]
      omega

lemma oversample_balances (s : List (Feat × ℕ)) (c : ℕ)
    (hc : c ∈ classesOf s) :
    classCount (oversample s) c = maxClassCount s := by
  unfold oversample classCount
  rw [List.countP_append]
  have h1 : s.countP (fun p => p.2 = c) = classCount s c := rfl
  rw [h1, countP_flatMap_mem s (classesOf s) c
    (List.nodup_dedup _) hc]
  have := classCount_le_max s c hc
  omega

/-- Claim C7: `prepare_data` applies the (modelled) SMOTE oversampling
before the split exactly when the label vector has more than one
distinct class — in which case every class is topped up to the majority
count — and with a single class it leaves the data unchanged and sets
the warning flag; the run never fails (the step is total). -/
theorem oversample_applied_iff (s : List (Feat × ℕ)) :
    ((prepare_balance s).2 = true ↔ (classesOf s).length ≤ 1) ∧
    ((classesOf s).length ≤ 1 → (prepare_balance s).1 = s) ∧
    (1 < (classesOf s).length →
      ∀ c ∈ classesOf s, classCount (prepare_balance s).1 c = maxClassCount s) := by
  refine ⟨?_, ?_, ?_⟩
  · unfold prepare_balance
    by_cases h : 1 < (classesOf s).length
    · rw [if_pos h]
      simp
      omega
    · rw [if_neg h]
      simp
      omega
  · intro h
    unfold prepare_balance
    rw [if_neg (by omega)]
  · intro h c hc
    unfold prepare_balance
    rw [if_pos h]
    exact oversample_balances s c hc

/-- A tiny training set: one sample of class 0, two of class 1. -/
def demoSamples : List (Feat × ℕ) := [([1], 0), ([2], 1), ([3], 1)]

/-- Witness for C7: on the two-class demo set the balancing step runs
and the minority class 0 is topped up to the majority count. -/
theorem oversample_applied_iff_witness :
    1 < (classesOf demoSamples).length ∧
    classCount (prepare_balance demoSamples).1 0 = maxClassCount demoSamples :=
  ⟨by decide, (oversample_applied_iff demoSamples).2.2 (by decide) 0 (by decide)⟩

/-- Claim C6, amended: the candidate list is sorted by last close
descending and truncated to the first 20 entries, but ties keep the
candidates' original (completion) order — the code's sort is stable and
never re-breaks ties by ticker identifier. -/
theorem ranking_sorted_truncated (l : List (String × ℚ)) :
    (pySortDesc l).Perm l ∧
    List.Sorted descByClose (pySortDesc l) ∧
    (topStocks l).length = min 20 l.length ∧
    (∀ q : ℚ, (pySortDesc l).filter (fun x => x.2 = q) =
      l.filter (fun x => x.2 = q)) := by
  refine ⟨List.perm_insertionSort _ l, List.sorted_insertionSort _ l, ?_, ?_⟩
  · have hlen := (List.perm_insertionSort descByClose l).length_eq
    unfold topStocks pySortDesc
    rw [List.length_take, hlen]
  · intro q
    induction l with
    | nil => rfl
    | cons a rest ih =>
      show (List.orderedInsert descByClose a (pySortDesc rest)).filter _ = _
      rw [filter_orderedInsert]
      by_cases h : a.2 = q <;> simp [List.filter_cons, h, ih]

end Findet
